import Mathlib

/-!
Verification development for the markdown-to-component compile pipeline of the
vite-md plugin.  The definitions below are a shallow embedding of
`packages/plugin-md/src/md/markdownToVue.ts`, `packages/plugin-md/src/md/utils/parseHeader.ts`
and `packages/plugin-md/src/md/utils/tsToJs.ts`.  External collaborators
(gray-matter, the markdown renderer, fs.statSync, babel/eslint, node:path+slash)
are modelled as injected functions; everything the repository itself implements
(regex pipelines, caching, escaping, payload assembly) is translated directly
from the source.  JavaScript strings are modelled as Lean `String`
(`List Char` underneath); machine-level float timestamps are modelled as `Nat`
since the source rounds them (`Math.round(....mtimeMs)`).
-/

set_option maxRecDepth 200000

namespace VM

/-! ## JavaScript character classes (regex `\s`, `.`, line terminators) -/

/-- Character class of the JavaScript regex escape `\s` (WhiteSpace and
LineTerminator productions), used by `trim`, `\s*` and `\s+`. -/
def isWs (c : Char) : Bool :=
  c == ' ' || c == '\t' || c == '\n' || c == '\r' ||
  c == Char.ofNat 11 || c == Char.ofNat 12 ||
  c == Char.ofNat 0xA0 || c == Char.ofNat 0x1680 ||
  (0x2000 ≤ c.toNat && c.toNat ≤ 0x200A) ||
  c == Char.ofNat 0x2028 || c == Char.ofNat 0x2029 ||
  c == Char.ofNat 0x202F || c == Char.ofNat 0x205F ||
  c == Char.ofNat 0x3000 || c == Char.ofNat 0xFEFF

/-- JavaScript line terminators: the characters the regex `.` does not match. -/
def isLineTerm (c : Char) : Bool :=
  c == '\n' || c == '\r' || c == Char.ofNat 0x2028 || c == Char.ofNat 0x2029

/-- List-level JavaScript `String.prototype.trim`. -/
def jsTrimL (l : List Char) : List Char :=
  ((l.dropWhile isWs).reverse.dropWhile isWs).reverse

/-- JavaScript `String.prototype.trim`. -/
def jsTrim (s : String) : String := ⟨jsTrimL s.data⟩

/-! ## Global literal replacement (JS `str.replace(/lit/g, rep)`)

The auxiliary `Nat` argument is the number of already-consumed characters of a
match still to be skipped, which keeps the recursion structural. -/

def replaceAllAux (p rep : List Char) : Nat → List Char → List Char
  | _ + 1, [] => []
  | skip + 1, _ :: rest => replaceAllAux p rep skip rest
  | 0, [] => []
  | 0, c :: rest =>
      if p.isPrefixOf (c :: rest) then rep ++ replaceAllAux p rep (p.length - 1) rest
      else c :: replaceAllAux p rep 0 rest

/-- Replace every (left-to-right, non-overlapping) occurrence of the literal
pattern `p` by `rep`, exactly like a global JavaScript regex replace of an
escaped literal. -/
def replaceAllL (p rep s : List Char) : List Char := replaceAllAux p rep 0 s

/-- String-level global literal replacement. -/
def replaceAllS (s pat rep : String) : String := ⟨replaceAllL pat.data rep.data s.data⟩

/-- Lines 50-52 / 98-100 / 119-121 of markdownToVue.ts:
`html.replace(/import\.meta/g, 'import.<wbr/>meta').replace(/process\.env/g, 'process.<wbr/>env')`. -/
def escapeVite (s : String) : String :=
  replaceAllS (replaceAllS s "import.meta" "import.<wbr/>meta") "process.env" "process.<wbr/>env"

/-! ## escape-html (npm), used for `content` and the jsfiddle payload -/

def quoteChar : Char := Char.ofNat 34

def aposChar : Char := Char.ofNat 39

/-- Character translation of the escape-html npm package. -/
def escapeHtmlChar (c : Char) : List Char :=
  if c == quoteChar then "&quot;".data
  else if c == '&' then "&amp;".data
  else if c == aposChar then "&#39;".data
  else if c == '<' then "&lt;".data
  else if c == '>' then "&gt;".data
  else [c]

/-- The escape-html npm package: HTML-escape `"`, `&`, `'`, `<`, `>`. -/
def escapeHtmlS (s : String) : String := ⟨s.data.flatMap escapeHtmlChar⟩

/-! ## JSON-ish values

Frontmatter parsed by gray-matter is an arbitrary JS value; we model the JSON
fragment relevant to the pipeline.  `jundefined` is JavaScript `undefined` (so that
absent object properties and `JSON.stringify` omission are faithful).  Mutual
inductives (instead of a nested `List`) keep all recursions structural. -/

mutual
inductive JVal where
  | jnull
  | jundefined
  | jbool (b : Bool)
  | jnum (n : Int)
  | jstr (s : String)
  | jarr (xs : JArr)
  | jobj (fs : JObj)
  deriving DecidableEq
inductive JArr where
  | anil
  | acons (v : JVal) (tl : JArr)
  deriving DecidableEq
inductive JObj where
  | onil
  | ocons (k : String) (v : JVal) (tl : JObj)
  deriving DecidableEq
end

/-- JavaScript property access `o[key]` on an object: `undefined` when absent. -/
def jGet : JObj → String → JVal
  | .onil, _ => .jundefined
  | .ocons k v tl, key => if k == key then v else jGet tl key

/-- JavaScript property access on an arbitrary value (non-objects have no
own properties in the fragment we model). -/
def jGetField : JVal → String → JVal
  | .jobj fs, key => jGet fs key
  | _, _ => .jundefined

/-- JavaScript array indexing. -/
def jIndex : JArr → Nat → JVal
  | .anil, _ => .jundefined
  | .acons v _, 0 => v
  | .acons _ tl, n + 1 => jIndex tl n

def jArrLen : JArr → Nat
  | .anil => 0
  | .acons _ tl => jArrLen tl + 1

def jArrFind (p : JVal → Bool) : JArr → Option JVal
  | .anil => none
  | .acons v tl => if p v then some v else jArrFind p tl

/-- JavaScript truthiness. -/
def jTruthy : JVal → Bool
  | .jnull => false
  | .jundefined => false
  | .jbool b => b
  | .jnum n => !(n == 0)
  | .jstr s => !(s == "")
  | .jarr _ => true
  | .jobj _ => true

mutual
/-- JavaScript `String(v)` coercion on the modelled fragment. -/
def jToString : JVal → String
  | .jnull => "null"
  | .jundefined => "undefined"
  | .jbool b => if b then "true" else "false"
  | .jnum n => toString n
  | .jstr s => s
  | .jarr xs => jToStringArr xs
  | .jobj _ => "[object Object]"
/-- JavaScript `Array.prototype.toString` (join by comma, null/undefined
become empty). -/
def jToStringArr : JArr → String
  | .anil => ""
  | .acons v .anil => jToStringElem v
  | .acons v tl => jToStringElem v ++ "," ++ jToStringArr tl
def jToStringElem : JVal → String
  | .jnull => ""
  | .jundefined => ""
  | .jbool b => if b then "true" else "false"
  | .jnum n => toString n
  | .jstr s => s
  | .jarr xs => jToStringArr xs
  | .jobj _ => "[object Object]"
end

/-! ## JSON.stringify -/

def hexDigit (n : Nat) : Char := "0123456789abcdef".data.getD n '0'

/-- JSON string escaping of one character, as produced by `JSON.stringify`. -/
def jsonQuoteChar (c : Char) : List Char :=
  if c == quoteChar then ['\\', quoteChar]
  else if c == '\\' then ['\\', '\\']
  else if c == '\n' then ['\\', 'n']
  else if c == '\r' then ['\\', 'r']
  else if c == '\t' then ['\\', 't']
  else if c == Char.ofNat 8 then ['\\', 'b']
  else if c == Char.ofNat 12 then ['\\', 'f']
  else if c.toNat < 32 then ['\\', 'u', '0', '0', hexDigit (c.toNat / 16), hexDigit (c.toNat % 16)]
  else [c]

/-- JSON.stringify of a string value. -/
def jsonQuote (s : String) : String :=
  ⟨quoteChar :: (s.data.flatMap jsonQuoteChar ++ [quoteChar])⟩

mutual
/-- Compact `JSON.stringify`.  `undefined` inside an array prints as `null`;
`undefined`-valued object properties are omitted (JS semantics). -/
def jsonStr : JVal → String
  | .jnull => "null"
  | .jundefined => "null"
  | .jbool b => if b then "true" else "false"
  | .jnum n => toString n
  | .jstr s => jsonQuote s
  | .jarr xs => "[" ++ jsonStrArr xs ++ "]"
  | .jobj fs => "\x7b" ++ String.intercalate "," (jsonStrObj fs) ++ "\x7d"
def jsonStrArr : JArr → String
  | .anil => ""
  | .acons v .anil => jsonStr v
  | .acons v tl => jsonStr v ++ "," ++ jsonStrArr tl
def jsonStrObj : JObj → List String
  | .onil => []
  | .ocons k v tl =>
      match v with
      | .jundefined => jsonStrObj tl
      | w => (jsonQuote k ++ ":" ++ jsonStr w) :: jsonStrObj tl
end

/-! ## Buffer.from(s).toString('base64') -/

/-- UTF-8 encoding of one character. -/
def utf8Bytes (c : Char) : List Nat :=
  let n := c.toNat
  if n < 0x80 then [n]
  else if n < 0x800 then [0xC0 + n / 64, 0x80 + n % 64]
  else if n < 0x10000 then [0xE0 + n / 4096, 0x80 + n / 64 % 64, 0x80 + n % 64]
  else [0xF0 + n / 262144, 0x80 + n / 4096 % 64, 0x80 + n / 64 % 64, 0x80 + n % 64]

def b64Digit (n : Nat) : Char :=
  "ABCDEFGHIJKLMNOPQRSTUVWXYZabcdefghijklmnopqrstuvwxyz0123456789+/".data.getD n 'A'

/-- Standard base64 of a byte list (with `=` padding). -/
def base64core : List Nat → List Char
  | [] => []
  | [a] => [b64Digit (a / 4), b64Digit (a % 4 * 16), '=', '=']
  | [a, b] => [b64Digit (a / 4), b64Digit (a % 4 * 16 + b / 16), b64Digit (b % 16 * 4), '=']
  | a :: b :: c :: rest =>
      b64Digit (a / 4) :: b64Digit (a % 4 * 16 + b / 16) ::
      b64Digit (b % 16 * 4 + c / 64) :: b64Digit (c % 64) :: base64core rest

/-- Node `Buffer.from(s).toString('base64')` (UTF-8 bytes, base64). -/
def base64encode (s : String) : String := ⟨base64core (s.data.flatMap utf8Bytes)⟩

/-! ## Generic global regex replace driver

`matchAt` inspects the current suffix and returns the replacement text and the
number of characters the match consumed (always positive for the regexes
modelled here).  The `Nat` argument is the remaining skip-count of a
replacement in progress, keeping the recursion structural. -/

def gReplace (matchAt : List Char → Option (List Char × Nat)) : Nat → List Char → List Char
  | _ + 1, [] => []
  | skip + 1, _ :: rest => gReplace matchAt skip rest
  | 0, [] => []
  | 0, c :: rest =>
      match matchAt (c :: rest) with
      | some (rep, consumed) => rep ++ gReplace matchAt (consumed - 1) rest
      | none => c :: gReplace matchAt 0 rest

/-! ## parseHeader.ts: `unescapeHtml` -/

/-- Lines 12-19 of parseHeader.ts: unescape the five fixed HTML entities, in
source order. -/
def unescapeHtml (s : String) : String :=
  replaceAllS (replaceAllS (replaceAllS (replaceAllS (replaceAllS s
    "&quot;" ⟨[quoteChar]⟩)
    "&#39;" ⟨[aposChar]⟩)
    "&#x3A;" ":")
    "&lt;" "<")
    "&gt;" ">"

/-! ## parseHeader.ts: `removeMarkdownTokens`

Three global regex replaces, each modelled by an exact matcher for its
pattern (with JavaScript leftmost-match, greedy/lazy and backtracking
semantics specialised to the concrete pattern). -/

/-- Matcher for `/(\[(.[^\]]+)\]\((.[^)]+)\))/g` (strip `[text](url)` keeping
`text`): `.` is any non-line-terminator, `[^\]]+`/`[^)]+` are greedy and also
match line terminators. -/
def matchLink (s : List Char) : Option (List Char × Nat) :=
  match s with
  | '[' :: x0 :: r1 =>
      if isLineTerm x0 then none
      else
        let runX := r1.takeWhile (fun c => !(c == ']'))
        if runX.length == 0 then none
        else
          match r1.drop runX.length with
          | ']' :: '(' :: y0 :: r2 =>
              if isLineTerm y0 then none
              else
                let runY := r2.takeWhile (fun c => !(c == ')'))
                if runY.length == 0 then none
                else
                  match r2.drop runY.length with
                  | ')' :: _ => some (x0 :: runX, 1 + 1 + runX.length + 1 + 1 + 1 + runY.length + 1)
                  | _ => none
          | _ => none
  | _ => none

/-- Lazy scan for the content of `(.*?[^\\])\1`: the smallest `m ≥ 1` such
that the first `m - 1` characters are non-line-terminators, the `m`-th is not
a backslash, and the delimiter follows. -/
def emphGo (d : List Char) : List Char → Option Nat
  | [] => none
  | c :: rest =>
      if !(c == '\\') && d.isPrefixOf rest then some 1
      else if isLineTerm c then none
      else (emphGo d rest).map (· + 1)

/-- Try one delimiter alternative of `/(`|\*{1,3}|_)(.*?[^\\])\1/g`. -/
def matchEmphWith (d : List Char) (s : List Char) : Option (List Char × Nat) :=
  if d.isPrefixOf s then
    match emphGo d (s.drop d.length) with
    | some m => some ((s.drop d.length).take m, d.length + m + d.length)
    | none => none
  else none

/-- Matcher for `/(`|\*{1,3}|_)(.*?[^\\])\1/g` (strip a matching pair of
emphasis/code delimiters keeping the inner text); alternatives tried in the
JavaScript order: backtick, `***`, `**`, `*`, `_`. -/
def matchEmph (s : List Char) : Option (List Char × Nat) :=
  match matchEmphWith ['`'] s with
  | some r => some r
  | none =>
  match matchEmphWith ['*', '*', '*'] s with
  | some r => some r
  | none =>
  match matchEmphWith ['*', '*'] s with
  | some r => some r
  | none =>
  match matchEmphWith ['*'] s with
  | some r => some r
  | none => matchEmphWith ['_'] s

/-- Matcher for `/(\\)(\*|_|`|\!|<|\$)/g` (unescape backslash-escaped
punctuation). -/
def matchEsc (s : List Char) : Option (List Char × Nat) :=
  match s with
  | '\\' :: c :: _ =>
      if c == '*' || c == '_' || c == '`' || c == '!' || c == '<' || c == '$' then
        some ([c], 2)
      else none
  | _ => none

/-- Lines 21-27 of parseHeader.ts: the three global replaces of
`removeMarkdownTokens`, in source order. -/
def removeMarkdownTokens (s : String) : String :=
  ⟨gReplace matchEsc 0 (gReplace matchEmph 0 (gReplace matchLink 0 s.data))⟩

/-! ## parseHeader.ts: `removeNonCodeWrappedHTML`

Model of `/(^|[^><`\\])<.*>([^><`]|$)/g` with replacement `'$1$2'`:
`.*` is greedy over non-line-terminators with backtracking over the position
of the closing `>`, and the second group either consumes one character that is
not in `><`&#96;` or matches the end of input. -/

/-- Try the tail `.*>([^><`]|$)` at offset `n` of `u` (the text after `<`):
`u.take n` is the `.*` part. -/
def rncCheck (u : List Char) (n : Nat) : Option (List Char × Nat) :=
  match u.drop n with
  | c :: rest2 =>
      if c == '>' then
        match rest2 with
        | c2 :: _ =>
            if !(c2 == '>' || c2 == '<' || c2 == '`') then some ([c2], n + 2)
            else none
        | [] => some ([], n + 1)
      else none
  | [] => none

/-- Greedy backtracking over the length of `.*`: largest offset first. -/
def rncBodyGo (u : List Char) : Nat → Option (List Char × Nat)
  | 0 => rncCheck u 0
  | n + 1 =>
      match rncCheck u (n + 1) with
      | some r => some r
      | none => rncBodyGo u n

/-- Match `<.*>([^><`]|$)` at the head of `v`; returns the text of group 2
and the consumed length (including the `<`). -/
def rncBody : List Char → Option (List Char × Nat)
  | '<' :: u =>
      match rncBodyGo u (u.takeWhile (fun c => !isLineTerm c)).length with
      | some (g2, consumed) => some (g2, 1 + consumed)
      | none => none
  | _ => none

/-- One match attempt of the full pattern at the current suffix; `atStart` is
true only at index 0, where the `^` alternative of group 1 applies first. -/
def matchRNC (atStart : Bool) (s : List Char) : Option (List Char × Nat) :=
  match (if atStart then rncBody s else none) with
  | some r => some r
  | none =>
      match s with
      | c :: rest =>
          if c == '>' || c == '<' || c == '`' || c == '\\' then none
          else
            match rncBody rest with
            | some (g2, consumed) => some (c :: g2, 1 + consumed)
            | none => none
      | [] => none

/-- Driver for the global replace of `removeNonCodeWrappedHTML`; same skip
mechanism as `gReplace`, plus the start-of-string flag. -/
def gReplaceRNC : Nat → Bool → List Char → List Char
  | _ + 1, _, [] => []
  | skip + 1, _, _ :: rest => gReplaceRNC skip false rest
  | 0, _, [] => []
  | 0, atStart, c :: rest =>
      match matchRNC atStart (c :: rest) with
      | some (rep, consumed) => rep ++ gReplaceRNC (consumed - 1) false rest
      | none => c :: gReplaceRNC 0 false rest

/-- Lines 35-37 of parseHeader.ts: remove raw HTML that is not wrapped in
backticks, preserving the boundary characters captured by the two groups. -/
def removeNonCodeWrappedHTML (s : String) : String := ⟨gReplaceRNC 0 true s.data⟩

/-- Lines 50-55 of parseHeader.ts: `parseHeader = compose(unescapeHtml,
removeMarkdownTokens, trim)` (compose chains left to right). -/
def parseHeader (s : String) : String := jsTrim (removeMarkdownTokens (unescapeHtml s))

/-- Line 56 of parseHeader.ts:
`deeplyParseHeader = compose(removeNonCodeWrappedHTML, parseHeader)`. -/
def deeplyParseHeader (s : String) : String := parseHeader (removeNonCodeWrappedHTML s)

/-! ## markdownToVue.ts: `inferTitle` and `inferDescription` -/

/-- Match `\s*#+\s+(.*)` at a candidate `^` position: returns the text
captured by `(.*)` (greedy `\s*`/`#+`/`\s+` need no backtracking since the
classes are disjoint; `\s` may cross line terminators, `.*` may not). -/
def matchHeadingAt (s : List Char) : Option (List Char) :=
  let s1 := s.dropWhile isWs
  if (s1.takeWhile (fun c => c == '#')).length == 0 then none
  else
    let s2 := s1.dropWhile (fun c => c == '#')
    if (s2.takeWhile isWs).length == 0 then none
    else some ((s2.dropWhile isWs).takeWhile (fun c => !isLineTerm c))

/-- Scan the later `^` candidate positions (after each line terminator). -/
def findHeadingGo : List Char → Option (List Char)
  | [] => none
  | c :: rest =>
      if isLineTerm c then
        match matchHeadingAt rest with
        | some cap => some cap
        | none => findHeadingGo rest
      else findHeadingGo rest

/-- The JavaScript match `content.match(/^\s*#+\s+(.*)/m)`: leftmost `^`
candidate (index 0, then after each line terminator) whose attempt succeeds;
returns capture group 1. -/
def findHeading (s : List Char) : Option (List Char) :=
  match matchHeadingAt s with
  | some cap => some cap
  | none => findHeadingGo s

/-- Lines 149-161 of markdownToVue.ts: title precedence. -/
def inferTitle (frontmatter : JObj) (content : String) : String :=
  if jTruthy (jGet frontmatter "home") then "Home"
  else if jTruthy (jGet frontmatter "title") then
    deeplyParseHeader (jToString (jGet frontmatter "title"))
  else
    match findHeading content.data with
    | some cap => deeplyParseHeader (jsTrim ⟨cap⟩)
    | none => ""

/-- One entry test of `getHeadMetaContent`'s `find`:
`([tag, attrs = {}]) => tag === 'meta' && attrs.name === name && attrs.content`.
(Entries of a well-typed head list are arrays; non-arrays are rejected.) -/
def headEntryIsMeta (name : String) (entry : JVal) : Bool :=
  match entry with
  | .jarr xs =>
      let tag := jIndex xs 0
      let attrs := match jIndex xs 1 with
        | .jundefined => JVal.jobj .onil
        | v => v
      tag == JVal.jstr "meta" && jGetField attrs "name" == JVal.jstr name &&
        jTruthy (jGetField attrs "content")
  | _ => false

/-- Lines 170-180 of markdownToVue.ts: `getHeadMetaContent` (returns the
`content` attribute of the first matching meta entry; `undefined` when the
head list is missing, empty or without a match). -/
def getHeadMetaContent (head : JVal) (name : String) : Option JVal :=
  match head with
  | .jarr xs =>
      if jArrLen xs == 0 then none
      else
        match jArrFind (headEntryIsMeta name) xs with
        | some (.jarr es) => some (jGetField (jIndex es 1) "content")
        | _ => none
  | _ => none

/-- Lines 163-168 of markdownToVue.ts: `inferDescription` (the `|| ''`
fallback; found contents are truthy by the find predicate). -/
def inferDescription (frontmatter : JObj) : String :=
  if !jTruthy (jGet frontmatter "head") then ""
  else
    match getHeadMetaContent (jGet frontmatter "head") "description" with
    | some v => if jTruthy v then jToString v else ""
    | none => ""

/-! ## Data model of the compile pipeline -/

/-- Header entries produced by the markdown renderer; the pipeline only reads
`title` and `content` (h.title lookups, caption extraction, serialization). -/
structure Header where
  title : String
  content : String
  deriving DecidableEq

/-- The `data` part of the renderer output (`MarkdownParsedData`):
`headers` and the optional `vueCode` demo source. -/
structure RenderData where
  headers : List Header
  vueCode : Option String
  deriving DecidableEq

/-- PageData as built at lines 54-64 of markdownToVue.ts. -/
structure PageData where
  title : String
  description : String
  frontmatter : JObj
  headers : List Header
  relativePath : String
  content : String
  html : String
  lastUpdated : Nat
  deriving DecidableEq

/-- MarkdownCompileResult (lines 22-25 of markdownToVue.ts). -/
structure MarkdownCompileResult where
  vueSrc : String
  pageData : PageData
  deriving DecidableEq

/-- External collaborators, injected: gray-matter, the markdown renderer,
fs.statSync (already rounded to integer millis), the babel+eslint transpiler
core (returns the possibly-undefined lint output), and
`slash(path.relative(root, file))` from node:path + slash.  Fallible
collaborators return `none` for a thrown exception; the transpiler
additionally distinguishes an `undefined` result (`some none`). -/
structure Env where
  matterFn : String → String × JObj
  renderFn : String → Option (String × RenderData)
  mtimeFn : String → Option Nat
  transpileFn : String → Option (Option String)
  relPathFn : String → String → String

/-- Ghost trace of external-collaborator invocations, used to state the
cache-hit claims. -/
inductive CallEv where
  | matterC (src : String)
  | renderC (text : String)
  | statC (file : String)
  | transpileC (text : String)
  deriving DecidableEq

/-! ## tsToJs.ts -/

/-- Lines 12-31 of tsToJs.ts: empty input short-circuits to `''` without
invoking babel/eslint; otherwise the external transform+lint runs and the
repo code applies `output ? output.trim() : output`. -/
def tsToJs (env : Env) (content : String) : Option (Option String) × List CallEv :=
  if content == "" then (some (some ""), [])
  else
    match env.transpileFn content with
    | none => (none, [.transpileC content])
    | some out =>
        (some (match out with
               | some s => if s == "" then some s else some (jsTrim s)
               | none => none),
         [.transpileC content])

/-! ## fetchCode (structural splitter)

The module `./utils/fetchCode` is imported by markdownToVue.ts but its file is
not part of the repository snapshot, so it is modelled from the spec. -/

/-- Index of the first occurrence of `pat` in a character list. -/
def idxOf (pat : List Char) : List Char → Option Nat
  | [] => if pat.isPrefixOf ([] : List Char) then some 0 else none
  | c :: rest =>
      if pat.isPrefixOf (c :: rest) then some 0 else (idxOf pat rest).map (· + 1)

/-- Modelled from the spec: the block of a tag, from the first occurrence of
the opening tag through the first subsequent closing tag, inclusive; empty
string when either is absent ("Any absent part yields an empty string
downstream - never an error"). -/
def extractTagBlock (code tag : String) : String :=
  match idxOf ("<" ++ tag).data code.data with
  | none => ""
  | some i =>
      let afterOpen := code.data.drop i
      let closeTag := ("</" ++ tag ++ ">").data
      match idxOf closeTag afterOpen with
      | none => ""
      | some j => ⟨afterOpen.take (j + closeTag.length)⟩

/-- Modelled from the spec: the inner body of a tag (between the end of the
opening tag and the closing tag); empty string when absent. -/
def extractTagInner (code tag : String) : String :=
  match idxOf ("<" ++ tag).data code.data with
  | none => ""
  | some i =>
      let afterOpen := code.data.drop i
      match idxOf ['>'] afterOpen with
      | none => ""
      | some g =>
          let inner := afterOpen.drop (g + 1)
          match idxOf ("</" ++ tag ++ ">").data inner with
          | none => ""
          | some j => ⟨inner.take j⟩

/-- Modelled from the spec: `fetchCode(code, part)` — "Structurally split the
demo source into independently-optional parts: template markup block, script
block (tag + contents), style block, and the script's inner body text"
(src/packages/plugin-md/src/md/utils/fetchCode.ts is not in the snapshot). -/
def fetchCode (code : String) (part : String) : String :=
  if part == "template" then extractTagBlock code "template"
  else if part == "script" then extractTagBlock code "script"
  else if part == "style" then extractTagBlock code "style"
  else if part == "scriptContent" then extractTagInner code "script"
  else ""

/-! ## genComponentCode (lines 86-147 of markdownToVue.ts) -/

/-- Line 106-110: `jsCode ? `<script>\n${jsCode}\n</script>` : ''`. -/
def wrapScript (jsCode : Option String) : String :=
  match jsCode with
  | some s => if s == "" then "" else "<script>\n" ++ s ++ "\n</script>"
  | none => ""

/-- Lines 111-115: the reassembled vanilla source
`` `\n${template}\n${jsCode}\n${style}\n  `.trim() ``. -/
def vanillaSource (template jsCode style : String) : String :=
  jsTrim ("\n" ++ template ++ "\n" ++ jsCode ++ "\n" ++ style ++ "\n  ")

/-- JavaScript `s.split(pat)[0]`: the prefix before the first occurrence of
`pat` (the whole string when absent). -/
def splitHeadL (pat : List Char) : List Char → List Char
  | [] => []
  | c :: rest => if pat.isPrefixOf (c :: rest) then [] else c :: splitHeadL pat rest

/-- String wrapper for `split(pat)[0]`. -/
def splitHead (s pat : String) : String := ⟨splitHeadL pat.data s.data⟩

/-- JavaScript `s.replace(pat, rep)` with a plain-string pattern: replace the
first occurrence only. -/
def replaceFirstL (pat rep : List Char) : List Char → List Char
  | [] => if pat.isPrefixOf ([] : List Char) then rep else []
  | c :: rest =>
      if pat.isPrefixOf (c :: rest) then rep ++ (c :: rest).drop pat.length
      else c :: replaceFirstL pat rep rest

/-- String wrapper for single replacement. -/
def replaceFirst (s pat rep : String) : String := ⟨replaceFirstL pat.data rep.data s.data⟩

def optStrJ : Option String → JVal
  | some s => .jstr s
  | none => .jundefined

def objHas : JObj → String → Bool
  | .onil, _ => false
  | .ocons k _ tl, key => k == key || objHas tl key

def objReplace : JObj → String → JVal → JObj
  | .onil, _, _ => .onil
  | .ocons k w tl, key, v =>
      if k == key then .ocons k v (objReplace tl key v) else .ocons k w (objReplace tl key v)

def objAppend : JObj → String → JVal → JObj
  | .onil, key, v => .ocons key v .onil
  | .ocons k w tl, key, v => .ocons k w (objAppend tl key v)

/-- JavaScript object-literal property definition: overwrite in place when the
key exists, append otherwise (insertion-order semantics of JS objects). -/
def objSet (o : JObj) (key : String) (v : JVal) : JObj :=
  if objHas o key then objReplace o key v else objAppend o key v

/-- First-match lookup (JS objects have unique keys). -/
def objGet : JObj → String → Option JVal
  | .onil, _ => none
  | .ocons k w tl, key => if k == key then some w else objGet tl key

/-- Object spread `{...o, ...fm}`: fold the fields of `fm` into `o` in order. -/
def spreadInto (o : JObj) : JObj → JObj
  | .onil => o
  | .ocons k v tl => spreadInto (objSet o k v) tl

/-- Lines 123-133 of markdownToVue.ts: the jsfiddle payload object literal
`{ us, cn, docHtml, ...pageData.frontmatter, relativePath, sourceCode,
jsSourceCode }` (computed caption/prefix fields first, then the frontmatter
spread, then the computed path and the base64 sources). -/
def buildJsfiddleObj (us cn : Option String) (docHtml : String) (fm : JObj)
    (relativePath sourceCode jsSourceCode : String) : JObj :=
  objSet
    (objSet
      (objSet
        (spreadInto
          (objSet (objSet (objSet .onil "us" (optStrJ us)) "cn" (optStrJ cn))
            "docHtml" (.jstr docHtml))
          fm)
        "relativePath" (.jstr relativePath))
      "sourceCode" (.jstr sourceCode))
    "jsSourceCode" (.jstr jsSourceCode)

/-- Lines 86-147 of markdownToVue.ts: demo component generation.  Returns the
component source (None when the renderer or transpiler throws) plus the ghost
trace of collaborator calls. -/
def genComponentCode (env : Env) (data : RenderData) (pageData : PageData) :
    Option String × List CallEv :=
  let vueCode := data.vueCode.getD ""
  let headers := data.headers
  let cn := (headers.find? (fun h => h.title == "zh-CN")).map (·.content)
  let us := (headers.find? (fun h => h.title == "en-US")).map (·.content)
  let render1src := "```vue\n" ++ jsTrim vueCode ++ "\n```"
  match env.renderFn render1src with
  | none => (none, [.renderC render1src])
  | some (html0, _) =>
      let html := escapeVite html0
      let template := fetchCode vueCode "template"
      let script := fetchCode vueCode "script"
      let style := fetchCode vueCode "style"
      let scriptContent := fetchCode vueCode "scriptContent"
      match tsToJs env scriptContent with
      | (none, ev) => (none, .renderC render1src :: ev)
      | (some jsOut, ev) =>
          let jsCode := wrapScript (jsOut.map jsTrim)
          let jsSourceCode := vanillaSource template jsCode style
          let render2src := "```vue\n" ++ jsSourceCode ++ "\n```"
          match env.renderFn render2src with
          | none => (none, .renderC render1src :: ev ++ [.renderC render2src])
          | some (jsV0, _) =>
              let jsVersion := escapeVite jsV0
              let docHtml := splitHead pageData.html "<pre class=\"language-vue\" v-pre>"
              let jsfiddle := escapeHtmlS (jsonStr (.jobj
                (buildJsfiddleObj us cn docHtml pageData.frontmatter
                  pageData.relativePath (base64encode vueCode) (base64encode jsSourceCode))))
              let newContent :=
                "\n    <template>\n      <demo-box :jsfiddle=\"" ++ jsfiddle ++
                "\">\n        " ++ replaceFirst template "<template>" "<template v-slot:default>" ++
                "\n        <template #htmlCode>" ++ html ++
                "</template>\n        <template #jsVersionHtml>" ++ jsVersion ++
                "</template>\n      </demo-box>\n    </template>\n    " ++ script ++
                "\n    " ++ style ++ "\n    "
              (some newContent, .renderC render1src :: ev ++ [.renderC render2src])

/-! ## The LRU compile cache (lru-cache with `max: 1024`) -/

/-- Cache state: entries in most-recently-used-first order. -/
abbrev Cache := List (String × MarkdownCompileResult)

/-- Line 27 of markdownToVue.ts: `new LRUCache({ max: 1024 })`. -/
def maxEntries : Nat := 1024

/-- lru-cache `get`: returns the value and marks the entry most recently
used; a miss leaves the cache unchanged. -/
def lruGet (c : List (String × α)) (k : String) : Option α × List (String × α) :=
  match c.find? (fun p => p.1 == k) with
  | none => (none, c)
  | some e => (some e.2, e :: c.eraseP (fun p => p.1 == k))

/-- lru-cache `set`: insert or update as most recently used; when the size
would exceed `max`, evict the least-recently-used entry. -/
def lruSet (max : Nat) (c : List (String × α)) (k : String) (v : α) :
    List (String × α) :=
  let c2 := (k, v) :: c.eraseP (fun p => p.1 == k)
  if max < c2.length then c2.dropLast else c2

/-! ## The compile function (lines 29-84 of markdownToVue.ts) -/

/-- Serialization shape of PageData for `JSON.stringify(pageData)`
(property creation order of the object literal at lines 54-64). -/
def headersToJArr : List Header → JArr
  | [] => .anil
  | h :: t => .acons (.jobj (.ocons "title" (.jstr h.title)
      (.ocons "content" (.jstr h.content) .onil))) (headersToJArr t)

/-- JSON view of a PageData record. -/
def pageDataToJVal (pd : PageData) : JVal :=
  .jobj (.ocons "title" (.jstr pd.title)
    (.ocons "description" (.jstr pd.description)
      (.ocons "frontmatter" (.jobj pd.frontmatter)
        (.ocons "headers" (.jarr (headersToJArr pd.headers))
          (.ocons "relativePath" (.jstr pd.relativePath)
            (.ocons "content" (.jstr pd.content)
              (.ocons "html" (.jstr pd.html)
                (.ocons "lastUpdated" (.jnum pd.lastUpdated) .onil))))))))

/-- Lines 67-74 of markdownToVue.ts: the plain (non-demo) component wrapper. -/
def plainWrapper (html : String) (pageData : PageData) (content : String) : String :=
  "\n<template><article class=\"markdown\">" ++ html ++
  "</article></template>\n\n<script>\nexport default \x7b pageData: " ++
  jsonStr (pageDataToJVal pageData) ++ " \x7d\n</script>\n" ++
  fetchCode content "style" ++ "\n"

/-- One full (non-cached) run of the pipeline body (lines 44-80): frontmatter
split, render, vite-escape, PageData build, then demo or plain component
assembly.  `none` when a collaborator throws; the trace records the external
calls in evaluation order. -/
def compileFresh (env : Env) (root src file : String) :
    Option MarkdownCompileResult × List CallEv :=
  let relativePath := env.relPathFn root file
  let mtr := env.matterFn src
  let content := mtr.1
  let frontmatter := mtr.2
  match env.renderFn content with
  | none => (none, [.matterC src, .renderC content])
  | some (html0, data) =>
      let html := escapeVite html0
      match env.mtimeFn file with
      | none => (none, [.matterC src, .renderC content, .statC file])
      | some mt =>
          let pageData : PageData :=
            { title := inferTitle frontmatter content
              description := inferDescription frontmatter
              frontmatter := frontmatter
              headers := data.headers
              relativePath := relativePath
              content := escapeHtmlS content
              html := html
              lastUpdated := mt }
          if (match data.vueCode with | some s => !(s == "") | none => false) then
            match genComponentCode env data pageData with
            | (none, tr) => (none, [.matterC src, .renderC content, .statC file] ++ tr)
            | (some nc, tr) =>
                (some { vueSrc := jsTrim nc, pageData := pageData },
                 [.matterC src, .renderC content, .statC file] ++ tr)
          else
            (some { vueSrc := jsTrim (plainWrapper html pageData content), pageData := pageData },
             [.matterC src, .renderC content, .statC file])

/-- Lines 35-83 of markdownToVue.ts: the returned async compile function, with
the cache made an explicit argument.  A hit returns the cached result (and
refreshes its recency); a successful miss stores the result; a failed compile
propagates without touching the cache (the exception aborts before
`cache.set`). -/
def compileOne (env : Env) (root : String) (cache : Cache) (src file : String) :
    Option MarkdownCompileResult × Cache × List CallEv :=
  match lruGet cache src with
  | (some cached, cacheHit) => (some cached, cacheHit, [])
  | (none, _) =>
      match compileFresh env root src file with
      | (some r, tr) => (some r, lruSet maxEntries cache src r, tr)
      | (none, tr) => (none, cache, tr)

/-! ## Auxiliary observations used by the statements -/

/-- Substring occurrence test: some suffix of `s` starts with `pat`. -/
def occursB (pat : List Char) : List Char → Bool
  | [] => pat.isPrefixOf ([] : List Char)
  | c :: rest => pat.isPrefixOf (c :: rest) || occursB pat rest

/-- Key list of a JS object, in insertion order. -/
def objKeys : JObj → List String
  | .onil => []
  | .ocons k _ tl => k :: objKeys tl

/-! ## Concrete fixtures (deterministic collaborator instances) -/

/-- A minimal deterministic collaborator bundle: gray-matter returns the raw
source with empty frontmatter, the renderer echoes its input with no headers
and no demo block, stat returns 0, the transpiler returns the empty string,
and the relative path is the file name itself. -/
def env0 : Env :=
  { matterFn := fun s => (s, .onil)
    renderFn := fun t => some (t, { headers := [], vueCode := none })
    mtimeFn := fun _ => some 0
    transpileFn := fun _ => some (some "")
    relPathFn := fun _ f => f }

/-- Collaborators whose markdown renderer always throws. -/
def envRenderFail : Env := { env0 with renderFn := fun _ => none }

/-- An inert compile result used to populate concrete caches. -/
def r0 : MarkdownCompileResult :=
  { vueSrc := ""
    pageData :=
      { title := ""
        description := ""
        frontmatter := .onil
        headers := []
        relativePath := ""
        content := ""
        html := ""
        lastUpdated := 0 } }

/-- A full cache: 1024 distinct keys (strings of `a`s of every length below
1024), most recently used first. -/
def cacheFull : Cache := (List.range 1024).map (fun i => (⟨List.replicate i 'a'⟩, r0))

/-! # Theorems -/

/-! ## LRU cache lemmas -/

theorem lruGet_len (c : List (String × α)) (k : String) :
    ((lruGet c k).2).length = c.length := by
  unfold lruGet
  cases hf : c.find? (fun p => p.1 == k) with
  | none => rfl
  | some e =>
      have he : e ∈ c := List.mem_of_find?_eq_some hf
      have hp := List.find?_some hf
      have hl := List.length_eraseP_add_one (p := fun q => q.1 == k) he hp
      simpa using hl

theorem lruGet_miss (c : List (String × α)) (k : String) (h : (lruGet c k).1 = none) :
    lruGet c k = (none, c) := by
  unfold lruGet at h ⊢
  cases hf : c.find? (fun p => p.1 == k) with
  | none => rfl
  | some e => rw [hf] at h; simp at h

theorem find?_cons_key (e : String × α) (rest : List (String × α)) (k : String)
    (hk : (e.1 == k) = true) :
    List.find? (fun p => p.1 == k) (e :: rest) = some e := by
  simp [List.find?, hk]

theorem lruGet_after (c : List (String × α)) (k : String) (v : α) (c' : List (String × α))
    (h : lruGet c k = (some v, c')) : (lruGet c' k).1 = some v := by
  unfold lruGet at h
  cases hf : c.find? (fun p => p.1 == k) with
  | none => rw [hf] at h; simp at h
  | some e =>
      rw [hf] at h
      have hk := List.find?_some hf
      have hv : e.2 = v := by
        have := congrArg Prod.fst h
        simpa using this
      have hc : c' = e :: c.eraseP (fun p => p.1 == k) := by
        have := congrArg Prod.snd h
        simpa using this.symm
      rw [hc]
      unfold lruGet
      rw [find?_cons_key _ _ _ hk]
      dsimp only
      rw [hv]

theorem lruSet_cons (c : List (String × α)) (k : String) (v : α) :
    ∃ rest, lruSet maxEntries c k v = (k, v) :: rest := by
  unfold lruSet
  by_cases h : maxEntries < ((k, v) :: c.eraseP (fun p => p.1 == k)).length
  · rw [if_pos h]
    cases he : c.eraseP (fun p => p.1 == k) with
    | nil => rw [he] at h; simp [maxEntries] at h
    | cons a t =>
        refine ⟨(a :: t).dropLast, ?_⟩
        rw [List.dropLast_cons_of_ne_nil (by simp)]
  · exact ⟨c.eraseP (fun p => p.1 == k), by rw [if_neg h]⟩

theorem lruGet_after_set (c : List (String × α)) (k : String) (v : α) :
    (lruGet (lruSet maxEntries c k v) k).1 = some v := by
  obtain ⟨rest, hr⟩ := lruSet_cons c k v
  rw [hr]
  unfold lruGet
  rw [find?_cons_key _ _ _ (by simp)]

theorem lruSet_len (max : Nat) (c : List (String × α)) (k : String) (v : α)
    (h : c.length ≤ max) : (lruSet max c k v).length ≤ max := by
  unfold lruSet
  have he : (c.eraseP (fun p => p.1 == k)).length ≤ c.length :=
    (List.eraseP_sublist c).length_le
  by_cases hlt : max < ((k, v) :: c.eraseP (fun p => p.1 == k)).length
  · rw [if_pos hlt, List.length_dropLast]
    simp only [List.length_cons] at hlt ⊢
    omega
  · rw [if_neg hlt]
    simp only [List.length_cons] at hlt ⊢
    omega

theorem lruSet_evict (c : List (String × α)) (k : String) (v : α)
    (hlen : c.length = 1024) (hnk : ∀ p ∈ c, p.1 ≠ k) :
    lruSet maxEntries c k v = (k, v) :: c.dropLast := by
  unfold lruSet
  rw [List.eraseP_of_forall_not (by intro a ha; simpa using hnk a ha)]
  rw [if_pos (by simp [maxEntries, hlen])]
  rw [List.dropLast_cons_of_ne_nil (by intro hnil; rw [hnil] at hlen; simp at hlen)]

/-! ## C6: a failed compile never stores anything -/

/-- C6: if any step of a compile fails (file-stat, markdown render, or the
transpiler during demo generation), the cache is returned unchanged: no entry
is stored for a failed compile, so a retry re-runs the full pipeline. -/
theorem failed_compile_leaves_cache (env : Env) (root : String) (cache : Cache)
    (src file : String) (h : (compileOne env root cache src file).1 = none) :
    (compileOne env root cache src file).2.1 = cache := by
  unfold compileOne at h ⊢
  cases hg : lruGet cache src with
  | mk o c' =>
    rw [hg] at h
    cases o with
    | some v => simp at h
    | none =>
        cases hf : compileFresh env root src file with
        | mk ro tr =>
          rw [hf] at h
          cases ro with
          | some r => simp at h
          | none => rfl

/-- C6 witness: a renderer failure on a populated cache. -/
theorem failed_compile_leaves_cache_witness :
    (compileOne envRenderFail "" [("a", r0)] "x" "f").1 = none ∧
    (compileOne envRenderFail "" [("a", r0)] "x" "f").2.1 = [("a", r0)] :=
  ⟨by decide, failed_compile_leaves_cache envRenderFail "" [("a", r0)] "x" "f" (by decide)⟩

/-! ## C1: the second compile of the same source is a pure cache hit -/

/-- C1: when a compile of `src` returns a result, an immediately following
compile of the same source against the resulting cache returns the identical
result with an empty collaborator trace (no renderer, stat or transpiler
invocation): a pure cache hit. -/
theorem compile_twice_cache_hit (env : Env) (root : String) (cache : Cache)
    (src file : String) (r : MarkdownCompileResult)
    (h : (compileOne env root cache src file).1 = some r) :
    (compileOne env root (compileOne env root cache src file).2.1 src file).1 = some r ∧
    (compileOne env root (compileOne env root cache src file).2.1 src file).2.2 = [] := by
  have key : (lruGet ((compileOne env root cache src file).2.1) src).1 = some r := by
    unfold compileOne at h ⊢
    cases hg : lruGet cache src with
    | mk o c' =>
      rw [hg] at h
      cases o with
      | some v =>
          dsimp only at h ⊢
          rw [← h]
          exact lruGet_after cache src v c' hg
      | none =>
          cases hf : compileFresh env root src file with
          | mk ro tr =>
            rw [hf] at h
            cases ro with
            | none => simp at h
            | some r' =>
                dsimp only at h ⊢
                rw [← h]
                exact lruGet_after_set cache src r'
  generalize hc1 : (compileOne env root cache src file).2.1 = c₁ at key ⊢
  unfold compileOne
  cases hg2 : lruGet c₁ src with
  | mk o2 c2 =>
    cases o2 with
    | some v =>
        rw [hg2] at key
        dsimp only at key ⊢
        exact ⟨key, rfl⟩
    | none => rw [hg2] at key; simp at key

/-! ## C9: bounded capacity and least-recently-used eviction -/

/-- Keys of the concrete full cache differ from "b". -/
theorem cacheFull_keys_ne (p : String × MarkdownCompileResult) (hp : p ∈ cacheFull) :
    p.1 ≠ "b" := by
  unfold cacheFull at hp
  obtain ⟨i, _, rfl⟩ := List.mem_map.mp hp
  intro h
  have hd : List.replicate i 'a' = "b".data := congrArg String.data h
  cases i with
  | zero => simp at hd
  | succ n =>
      rw [List.replicate_succ] at hd
      have hh : 'a' = 'b' ∧ List.replicate n 'a' = [] := List.cons.inj hd
      exact absurd hh.1 (by decide)

/-- C9: the compile cache is capacity-bounded at 1024 entries: `get` preserves
the entry count, `set` preserves the 1024 bound, a compile preserves the
bound, and an insert of a fresh key into a full cache evicts exactly the
least-recently-used entry (the last in recency order). -/
theorem cache_capacity_lru :
    (∀ (c : Cache) (k : String), ((lruGet c k).2).length = c.length) ∧
    (∀ (c : Cache) (k : String) (v : MarkdownCompileResult),
       c.length ≤ 1024 → (lruSet maxEntries c k v).length ≤ 1024) ∧
    (∀ (env : Env) (root : String) (c : Cache) (src file : String),
       c.length ≤ 1024 → ((compileOne env root c src file).2.1).length ≤ 1024) ∧
    (∀ (c : Cache) (k : String) (v : MarkdownCompileResult),
       c.length = 1024 → (∀ p ∈ c, p.1 ≠ k) →
       lruSet maxEntries c k v = (k, v) :: c.dropLast) := by
  refine ⟨fun c k => lruGet_len c k, fun c k v h => lruSet_len maxEntries c k v h,
    ?_, fun c k v h1 h2 => lruSet_evict c k v h1 h2⟩
  intro env root c src file h
  unfold compileOne
  cases hg : lruGet c src with
  | mk o c' =>
    cases o with
    | some v =>
        dsimp only
        have := lruGet_len c src
        rw [hg] at this
        simpa [this] using h
    | none =>
        cases hf : compileFresh env root src file with
        | mk ro tr =>
          cases ro with
          | some r => exact lruSet_len maxEntries c src r h
          | none => exact h

/-- C9 witness: eviction of the least-recently-used entry of a concrete full
cache, and bound preservation on a concrete set. -/
theorem cache_capacity_lru_witness :
    lruSet maxEntries cacheFull "b" r0 = ("b", r0) :: cacheFull.dropLast ∧
    (lruSet maxEntries ([("a", r0)] : Cache) "b" r0).length ≤ 1024 :=
  ⟨cache_capacity_lru.2.2.2 cacheFull "b" r0
      (by simp [cacheFull]) (fun p hp => cacheFull_keys_ne p hp),
   cache_capacity_lru.2.1 [("a", r0)] "b" r0 (by simp)⟩

/-! ## The success shape of a fresh compile -/

/-- Inversion of a successful `compileFresh`: the produced PageData is built
from the frontmatter split, the render output, the stat time, and the
path-derived relativePath, exactly as at lines 54-64 of the source. -/
theorem compileFresh_fields (env : Env) (root src file : String)
    (r : MarkdownCompileResult) (tr : List CallEv)
    (h : compileFresh env root src file = (some r, tr)) :
    ∃ out mt,
      env.renderFn (env.matterFn src).1 = some out ∧
      env.mtimeFn file = some mt ∧
      r.pageData =
        { title := inferTitle (env.matterFn src).2 (env.matterFn src).1
          description := inferDescription (env.matterFn src).2
          frontmatter := (env.matterFn src).2
          headers := out.2.headers
          relativePath := env.relPathFn root file
          content := escapeHtmlS (env.matterFn src).1
          html := escapeVite out.1
          lastUpdated := mt } := by
  simp only [compileFresh] at h
  cases hr : env.renderFn (env.matterFn src).1 with
  | none => rw [hr] at h; simp at h
  | some out =>
      rw [hr] at h
      cases hm : env.mtimeFn file with
      | none => rw [hm] at h; simp at h
      | some mt =>
          rw [hm] at h
          refine ⟨out, mt, rfl, rfl, ?_⟩
          dsimp only at h
          by_cases hv : (match out.2.vueCode with
            | some s => !(s == "")
            | none => false) = true
          · rw [if_pos hv] at h
            cases hgc : genComponentCode env out.2
              { title := inferTitle (env.matterFn src).2 (env.matterFn src).1
                description := inferDescription (env.matterFn src).2
                frontmatter := (env.matterFn src).2
                headers := out.2.headers
                relativePath := env.relPathFn root file
                content := escapeHtmlS (env.matterFn src).1
                html := escapeVite out.1
                lastUpdated := mt } with
            | mk go gtr =>
              rw [hgc] at h
              cases go with
              | none => simp at h
              | some nc =>
                  have : ({ vueSrc := jsTrim nc, pageData := _ } : MarkdownCompileResult) = r :=
                    congrArg Prod.fst h |> Option.some.inj
                  rw [← this]
          · rw [if_neg hv] at h
            have := congrArg Prod.fst h |> Option.some.inj
            rw [← this]

/-! ## C8: `content` is always the HTML-escaped post-frontmatter body -/

/-- C8: on every fresh (non-cached) successful compile, with or without a
demo block, `pageData.content` equals `escapeHtml` of the gray-matter body. -/
theorem content_is_escaped_body (env : Env) (root : String) (cache : Cache)
    (src file : String) (r : MarkdownCompileResult)
    (hmiss : (lruGet cache src).1 = none)
    (h : (compileOne env root cache src file).1 = some r) :
    r.pageData.content = escapeHtmlS (env.matterFn src).1 := by
  unfold compileOne at h
  rw [lruGet_miss cache src hmiss] at h
  cases hf : compileFresh env root src file with
  | mk ro tr =>
    rw [hf] at h
    cases ro with
    | none => simp at h
    | some r' =>
        dsimp only at h
        obtain ⟨out, mt, _, _, hpd⟩ := compileFresh_fields env root src file r' tr hf
        have : r' = r := Option.some.inj h
        rw [← this, hpd]

/-- C8 witness: concrete compile of a body with escapable characters
(the demo and plain generation paths agree on the field). -/
theorem content_is_escaped_body_witness :
    ((compileOne env0 "" [] "<hi> & y" "f").1.map (fun r => r.pageData.content)) =
      some (escapeHtmlS "<hi> & y") ∧ escapeHtmlS "<hi> & y" = "&lt;hi&gt; &amp; y" := by
  have hs : (compileOne env0 "" [] "<hi> & y" "f").1.isSome = true := by decide
  have h := content_is_escaped_body env0 "" [] "<hi> & y" "f"
    ((compileOne env0 "" [] "<hi> & y" "f").1.get hs) (by decide) (Option.some_get hs).symm
  constructor
  · rw [← Option.some_get hs]
    exact congrArg some h
  · decide

/-! ## C2: the compile result is NOT path-independent -/

/-- C2 counterexample: identical source compiled (with deterministic
collaborators, same root, fresh caches) at two different file paths yields
different results — pageData.relativePath is derived from the file path, so
the result is not a pure function of source and options. -/
theorem compile_not_path_independent :
    (compileOne env0 "" [] "s" "a.md").1 ≠ (compileOne env0 "" [] "s" "b.md").1 := by
  decide

/-- C2 amended: two fresh compiles of the same source at different paths agree
on every component of the page data except the path-derived fields
(relativePath, lastUpdated) and the component source embedding them. -/
theorem compile_path_agnostic_fields (env : Env) (root : String)
    (cache1 cache2 : Cache) (src f1 f2 : String) (r1 r2 : MarkdownCompileResult)
    (h1m : (lruGet cache1 src).1 = none) (h2m : (lruGet cache2 src).1 = none)
    (h1 : (compileOne env root cache1 src f1).1 = some r1)
    (h2 : (compileOne env root cache2 src f2).1 = some r2) :
    r1.pageData.title = r2.pageData.title ∧
    r1.pageData.description = r2.pageData.description ∧
    r1.pageData.frontmatter = r2.pageData.frontmatter ∧
    r1.pageData.headers = r2.pageData.headers ∧
    r1.pageData.content = r2.pageData.content ∧
    r1.pageData.html = r2.pageData.html := by
  unfold compileOne at h1 h2
  rw [lruGet_miss cache1 src h1m] at h1
  rw [lruGet_miss cache2 src h2m] at h2
  cases hf1 : compileFresh env root src f1 with
  | mk ro1 tr1 =>
    rw [hf1] at h1
    cases hf2 : compileFresh env root src f2 with
    | mk ro2 tr2 =>
      rw [hf2] at h2
      cases ro1 with
      | none => simp at h1
      | some r1' =>
        cases ro2 with
        | none => simp at h2
        | some r2' =>
            dsimp only at h1 h2
            obtain ⟨out1, mt1, hout1, _, hpd1⟩ := compileFresh_fields env root src f1 r1' tr1 hf1
            obtain ⟨out2, mt2, hout2, _, hpd2⟩ := compileFresh_fields env root src f2 r2' tr2 hf2
            have hoo : out1 = out2 := by
              have := hout1.symm.trans hout2
              exact Option.some.inj this
            rw [← Option.some.inj h1, ← Option.some.inj h2, hpd1, hpd2, hoo]
            exact ⟨rfl, rfl, rfl, rfl, rfl, rfl⟩

/-- C2 amended witness: the concrete pair from the counterexample agrees on
all six source-derived fields. -/
theorem compile_path_agnostic_fields_witness :
    ((compileOne env0 "" [] "s" "a.md").1.map (fun r => r.pageData.html)) =
      ((compileOne env0 "" [] "s" "b.md").1.map (fun r => r.pageData.html)) := by
  have hs1 : (compileOne env0 "" [] "s" "a.md").1.isSome = true := by decide
  have hs2 : (compileOne env0 "" [] "s" "b.md").1.isSome = true := by decide
  have h := compile_path_agnostic_fields env0 "" [] [] "s" "a.md" "b.md"
    ((compileOne env0 "" [] "s" "a.md").1.get hs1)
    ((compileOne env0 "" [] "s" "b.md").1.get hs2)
    (by decide) (by decide) (Option.some_get hs1).symm (Option.some_get hs2).symm
  rw [← Option.some_get hs1, ← Option.some_get hs2]
  exact congrArg some h.2.2.2.2.2

/-- C1 witness: concrete double compile through a deterministic environment. -/
theorem compile_twice_cache_hit_witness :
    (compileOne env0 "" (compileOne env0 "" [] "x" "f").2.1 "x" "f").1 =
      (compileOne env0 "" [] "x" "f").1 ∧
    (compileOne env0 "" (compileOne env0 "" [] "x" "f").2.1 "x" "f").2.2 = [] := by
  have hs : (compileOne env0 "" [] "x" "f").1.isSome = true := by decide
  have h := compile_twice_cache_hit env0 "" [] "x" "f"
    ((compileOne env0 "" [] "x" "f").1.get hs) (Option.some_get hs).symm
  exact ⟨h.1.trans (Option.some_get hs), h.2⟩

/-! ## C3: title precedence chain -/

/-- C3 counterexample: the heading fallback is NOT restricted to top-level
headings.  The regex `/^\s*#+\s+(.*)/m` accepts any heading depth, so for a
body whose first heading line is the level-2 `## Sub` and whose first
top-level heading line is `# Top`, the computed title is "Sub", not the
"Top" the claim mandates. -/
theorem title_heading_depth_counterexample :
    inferTitle .onil "## Sub\n# Top" = "Sub" ∧
    inferTitle .onil "## Sub\n# Top" ≠ deeplyParseHeader (jsTrim "Top") :=
  ⟨by decide, by decide⟩

/-- C3 amended: exactly one branch of the title precedence chain is taken:
home flag gives "Home"; else a truthy frontmatter title is deep-sanitized;
else the first heading-line match of ANY depth (the leftmost
`/^\s*#+\s+(.*)/m` match, not only top-level headings) has its trimmed
capture deep-sanitized; else the title is empty. -/
theorem title_precedence (fm : JObj) (content : String) :
    (jTruthy (jGet fm "home") = true → inferTitle fm content = "Home") ∧
    (jTruthy (jGet fm "home") = false → jTruthy (jGet fm "title") = true →
      inferTitle fm content = deeplyParseHeader (jToString (jGet fm "title"))) ∧
    (jTruthy (jGet fm "home") = false → jTruthy (jGet fm "title") = false →
      ∀ cap, findHeading content.data = some cap →
        inferTitle fm content = deeplyParseHeader (jsTrim ⟨cap⟩)) ∧
    (jTruthy (jGet fm "home") = false → jTruthy (jGet fm "title") = false →
      findHeading content.data = none → inferTitle fm content = "") := by
  refine ⟨?_, ?_, ?_, ?_⟩
  · intro h1
    simp [inferTitle, h1]
  · intro h1 h2
    simp [inferTitle, h1, h2]
  · intro h1 h2 cap hcap
    simp [inferTitle, h1, h2, hcap]
  · intro h1 h2 hcap
    simp [inferTitle, h1, h2, hcap]

/-- C3 witness: the four branches at concrete inputs (home flag wins over an
explicit title; explicit title is deep-sanitized; heading fallback, including
a level-2 heading preceding a top-level one; empty). -/
theorem title_precedence_witness :
    inferTitle (.ocons "home" (.jbool true) (.ocons "title" (.jstr "T") .onil)) "# X" = "Home" ∧
    inferTitle (.ocons "title" (.jstr "**T**") .onil) "# X" =
      deeplyParseHeader (jToString (.jstr "**T**")) ∧
    inferTitle .onil "# Hello" = deeplyParseHeader (jsTrim "Hello") ∧
    inferTitle .onil "## Sub\n# Top" = deeplyParseHeader (jsTrim "Sub") ∧
    inferTitle .onil "no heading" = "" :=
  ⟨(title_precedence _ "# X").1 (by decide),
   (title_precedence _ "# X").2.1 (by decide) (by decide),
   (title_precedence .onil "# Hello").2.2.1 (by decide) (by decide) "Hello".data (by decide),
   (title_precedence .onil "## Sub\n# Top").2.2.1 (by decide) (by decide) "Sub".data (by decide),
   (title_precedence .onil "no heading").2.2.2 (by decide) (by decide) (by decide)⟩

/-! ## C4: the sanitizer contract examples -/

/-- C4 counterexample: the full deep pipeline does not leave `` `<a>` b ``
unchanged: the backtick-wrapped tag survives the HTML-stripping step, but the
Shallow pipeline's delimiter-pair removal strips the backtick pair, so the
output is `<a> b`. -/
theorem sanitizer_example_counterexample :
    deeplyParseHeader "`<a>` b" = "<a> b" ∧ ("<a> b" : String) ≠ "`<a>` b" :=
  ⟨by decide, by decide⟩

/-- C4 amended: `<a> b` maps to `b`; `` `<a>` b `` is unchanged by the
HTML-stripping step alone, but the full pipeline then strips the backtick
delimiter pair, yielding `<a> b`. -/
theorem sanitizer_example_amended :
    deeplyParseHeader "<a> b" = "b" ∧
    removeNonCodeWrappedHTML "`<a>` b" = "`<a>` b" ∧
    deeplyParseHeader "`<a>` b" = "<a> b" :=
  ⟨by decide, by decide, by decide⟩

/-! ## C10: jsfiddle payload spread-order lemmas -/

/-- Structural induction on a JS object alone (its JVal fields opaque),
since the mutual recursor has multiple motives. -/
theorem jobj_induction (P : JObj → Prop) (hnil : P .onil)
    (hcons : ∀ (k : String) (v : JVal) (tl : JObj), P tl → P (.ocons k v tl)) :
    ∀ o : JObj, P o
  | .onil => hnil
  | .ocons k v tl => hcons k v tl (jobj_induction P hnil hcons tl)

theorem objGet_none_of_not_has (o : JObj) (k : String) (h : objHas o k = false) :
    objGet o k = none := by
  induction o using jobj_induction with
  | hnil => rfl
  | hcons k' w tl ih =>
      unfold objHas at h
      unfold objGet
      rcases Bool.or_eq_false_iff.mp h with ⟨h1, h2⟩
      rw [h1]
      exact ih h2

theorem objGet_objReplace_self (o : JObj) (k : String) (v : JVal)
    (h : objHas o k = true) : objGet (objReplace o k v) k = some v := by
  induction o using jobj_induction with
  | hnil => simp [objHas] at h
  | hcons k' w tl ih =>
      unfold objHas at h
      unfold objReplace
      by_cases hk : (k' == k) = true
      · rw [if_pos hk]
        unfold objGet
        rw [if_pos hk]
      · rw [if_neg hk]
        unfold objGet
        rw [if_neg hk]
        rcases Bool.or_eq_true_iff.mp h with h1 | h2
        · exact absurd h1 hk
        · exact ih h2

theorem objGet_objAppend_self (o : JObj) (k : String) (v : JVal)
    (h : objHas o k = false) : objGet (objAppend o k v) k = some v := by
  induction o using jobj_induction with
  | hnil => simp [objAppend, objGet]
  | hcons k' w tl ih =>
      unfold objHas at h
      rcases Bool.or_eq_false_iff.mp h with ⟨h1, h2⟩
      unfold objAppend objGet
      rw [h1]
      exact ih h2

theorem objGet_objSet_self (o : JObj) (k : String) (v : JVal) :
    objGet (objSet o k v) k = some v := by
  unfold objSet
  by_cases h : objHas o k = true
  · rw [if_pos h]
    exact objGet_objReplace_self o k v h
  · rw [if_neg h]
    exact objGet_objAppend_self o k v (Bool.not_eq_true _ ▸ h)

theorem objGet_objSet_ne (o : JObj) (k k' : String) (v : JVal) (h : k' ≠ k) :
    objGet (objSet o k v) k' = objGet o k' := by
  have hb : ∀ q : String, (q == k) = true → (q == k') = false := by
    intro q hq
    rw [beq_iff_eq] at hq
    subst hq
    exact beq_eq_false_iff_ne.mpr fun e => h e.symm
  unfold objSet
  by_cases hh : objHas o k = true
  · rw [if_pos hh]
    clear hh
    induction o using jobj_induction with
    | hnil => rfl
    | hcons q w tl ih =>
        by_cases hq : (q == k) = true
        · simp [objReplace, objGet, hq, hb q hq, ih]
        · simp [objReplace, objGet, hq, ih]
  · rw [if_neg hh]
    clear hh
    induction o using jobj_induction with
    | hnil =>
        simp [objAppend, objGet,
          show (k == k') = false from beq_eq_false_iff_ne.mpr fun e => h e.symm]
    | hcons q w tl ih =>
        simp [objAppend, objGet, ih]

theorem objGet_spread_not_mem (fm : JObj) (q : String) (hq : q ∉ objKeys fm) :
    ∀ o : JObj, objGet (spreadInto o fm) q = objGet o q := by
  induction fm using jobj_induction with
  | hnil => intro o; rfl
  | hcons k w tl ih =>
      intro o
      unfold objKeys at hq
      rw [List.mem_cons] at hq
      push_neg at hq
      unfold spreadInto
      rw [ih hq.2]
      exact objGet_objSet_ne o k q w hq.1

theorem objGet_spread_mem (fm : JObj) (q : String) (v : JVal)
    (hnd : (objKeys fm).Nodup) (hv : objGet fm q = some v) :
    ∀ o : JObj, objGet (spreadInto o fm) q = some v := by
  induction fm using jobj_induction with
  | hnil => intro o; simp [objGet] at hv
  | hcons k w tl ih =>
      intro o
      unfold objKeys at hnd
      rw [List.nodup_cons] at hnd
      unfold objGet at hv
      unfold spreadInto
      by_cases hk : (k == q) = true
      · rw [if_pos hk] at hv
        have hkq : k = q := beq_iff_eq.mp hk
        subst hkq
        rw [objGet_spread_not_mem tl k hnd.1]
        rw [objGet_objSet_self]
        exact hv
      · rw [if_neg hk] at hv
        exact ih hnd.2 hv (objSet o k w)

/-- C10: in the jsfiddle payload object, the frontmatter spread comes after
the computed `us`/`cn`/`docHtml` fields and before the computed
`relativePath`/`sourceCode`/`jsSourceCode` fields: a frontmatter key named
us/cn/docHtml silently overrides the computed value, while the three
late computed fields always win over frontmatter keys of the same name. -/
theorem jsfiddle_payload_spread (us cn : Option String) (docHtml : String)
    (fm : JObj) (rp sc jsc : String) (hnd : (objKeys fm).Nodup) :
    (∀ v, objGet fm "us" = some v →
      objGet (buildJsfiddleObj us cn docHtml fm rp sc jsc) "us" = some v) ∧
    (∀ v, objGet fm "cn" = some v →
      objGet (buildJsfiddleObj us cn docHtml fm rp sc jsc) "cn" = some v) ∧
    (∀ v, objGet fm "docHtml" = some v →
      objGet (buildJsfiddleObj us cn docHtml fm rp sc jsc) "docHtml" = some v) ∧
    objGet (buildJsfiddleObj us cn docHtml fm rp sc jsc) "relativePath" = some (.jstr rp) ∧
    objGet (buildJsfiddleObj us cn docHtml fm rp sc jsc) "sourceCode" = some (.jstr sc) ∧
    objGet (buildJsfiddleObj us cn docHtml fm rp sc jsc) "jsSourceCode" = some (.jstr jsc) := by
  unfold buildJsfiddleObj
  refine ⟨?_, ?_, ?_, ?_, ?_, ?_⟩
  · intro v hv
    rw [objGet_objSet_ne _ _ _ _ (by decide), objGet_objSet_ne _ _ _ _ (by decide),
      objGet_objSet_ne _ _ _ _ (by decide)]
    exact objGet_spread_mem fm "us" v hnd hv _
  · intro v hv
    rw [objGet_objSet_ne _ _ _ _ (by decide), objGet_objSet_ne _ _ _ _ (by decide),
      objGet_objSet_ne _ _ _ _ (by decide)]
    exact objGet_spread_mem fm "cn" v hnd hv _
  · intro v hv
    rw [objGet_objSet_ne _ _ _ _ (by decide), objGet_objSet_ne _ _ _ _ (by decide),
      objGet_objSet_ne _ _ _ _ (by decide)]
    exact objGet_spread_mem fm "docHtml" v hnd hv _
  · rw [objGet_objSet_ne _ _ _ _ (by decide), objGet_objSet_ne _ _ _ _ (by decide)]
    exact objGet_objSet_self _ _ _
  · rw [objGet_objSet_ne _ _ _ _ (by decide)]
    exact objGet_objSet_self _ _ _
  · exact objGet_objSet_self _ _ _

/-- C10 witness: a concrete frontmatter carrying `us` and `relativePath`
keys: its `us` wins, the computed relativePath wins. -/
theorem jsfiddle_payload_spread_witness :
    objGet (buildJsfiddleObj (some "U") none "D"
      (.ocons "us" (.jstr "OV") (.ocons "relativePath" (.jstr "PV") .onil))
      "rp" "sc" "jsc") "us" = some (.jstr "OV") ∧
    objGet (buildJsfiddleObj (some "U") none "D"
      (.ocons "us" (.jstr "OV") (.ocons "relativePath" (.jstr "PV") .onil))
      "rp" "sc" "jsc") "relativePath" = some (.jstr "rp") := by
  have h := jsfiddle_payload_spread (some "U") none "D"
    (.ocons "us" (.jstr "OV") (.ocons "relativePath" (.jstr "PV") .onil))
    "rp" "sc" "jsc" (by decide)
  exact ⟨h.1 (.jstr "OV") (by decide), h.2.2.2.1⟩

/-! ## C7: empty transpiled script omits the script wrapper entirely -/

theorem prefOfAppendLe (p u v : List Char) (h : p.isPrefixOf (u ++ v) = true)
    (hl : p.length ≤ u.length) : p.isPrefixOf u = true := by
  rw [ List.isPrefixOf_iff_prefix] at h ⊢
  rw [List.prefix_iff_eq_take] at h
  rw [List.take_append_eq_append_take, Nat.sub_eq_zero_of_le hl, List.take_zero,
    List.append_nil] at h
  rw [h]
  exact List.take_prefix _ _

theorem memOfPrefLong (p u v : List Char) (c : Char) (h : p.isPrefixOf (u ++ c :: v) = true)
    (hl : u.length < p.length) : c ∈ p := by
  rw [ List.isPrefixOf_iff_prefix, List.prefix_iff_eq_take] at h
  rw [List.take_append_eq_append_take] at h
  rw [List.take_of_length_le (Nat.le_of_lt hl)] at h
  have h2 : (c :: v).take (p.length - u.length) = c :: v.take (p.length - u.length - 1) := by
    cases hpu : p.length - u.length with
    | zero => omega
    | succ n => simp [List.take_succ_cons]
  rw [h2] at h
  rw [h]
  exact List.mem_append_right _ (List.mem_cons_self _ _)

/-- An occurrence in `a ++ c :: b` with `c` not a pattern character lies
entirely inside `a` or inside `b`. -/
theorem occursB_split (p a b : List Char) (c : Char) (hc : c ∉ p)
    (h : occursB p (a ++ c :: b) = true) : occursB p a = true ∨ occursB p b = true := by
  induction a with
  | nil =>
      rw [List.nil_append] at h
      unfold occursB at h
      rcases Bool.or_eq_true_iff.mp h with h1 | h2
      · cases p with
        | nil => left; rfl
        | cons d p' =>
            simp [List.isPrefixOf] at h1
            exact absurd (List.mem_cons_self c p') (h1.1 ▸ hc)
      · right; exact h2
  | cons x a' ih =>
      rw [List.cons_append] at h
      unfold occursB at h
      rcases Bool.or_eq_true_iff.mp h with h1 | h2
      · rw [← List.cons_append] at h1
        by_cases hl : p.length ≤ (x :: a').length
        · left
          unfold occursB
          rw [prefOfAppendLe p (x :: a') (c :: b) h1 hl]
          rfl
        · exact absurd (memOfPrefLong p (x :: a') b c h1 (by omega)) hc
      · rcases ih h2 with h3 | h3
        · left
          unfold occursB
          rw [h3]
          simp
        · right; exact h3

theorem occursB_nil_false (p : List Char) (hp : p ≠ []) : occursB p [] = false := by
  cases p with
  | nil => simp at hp
  | cons d p' => rfl

theorem dropWhile_ws_cons_true (c : Char) (h : isWs c = true) (l : List Char) :
    List.dropWhile isWs (c :: l) = List.dropWhile isWs l := by
  simp [List.dropWhile_cons, h]

theorem dropWhile_ws_cons_false (c : Char) (h : isWs c = false) (l : List Char) :
    List.dropWhile isWs (c :: l) = c :: l := by
  simp [List.dropWhile_cons, h]

/-- Trimming the vanilla assembly with an empty script contribution leaves
exactly `template ++ "\n\n" ++ style` (for parts with non-whitespace edges). -/
theorem jsTrimL_sandwich (T S : List Char) (tc : Char) (hT : T.head? = some tc)
    (htc : isWs tc = false) (sc : Char) (hS : S.getLast? = some sc) (hsc : isWs sc = false) :
    jsTrimL ('\n' :: (T ++ '\n' :: '\n' :: (S ++ ['\n', ' ', ' ']))) =
    T ++ '\n' :: '\n' :: S := by
  obtain ⟨tl, rfl⟩ : ∃ tl, T = tc :: tl := by
    cases T with
    | nil => simp at hT
    | cons a l =>
        simp at hT
        exact ⟨l, by rw [hT]⟩
  obtain ⟨w, hw⟩ : ∃ w, S.reverse = sc :: w := by
    have := List.head?_reverse S
    rw [hS] at this
    cases hrev : S.reverse with
    | nil => rw [hrev] at this; simp at this
    | cons a l =>
        rw [hrev] at this
        simp at this
        exact ⟨l, by rw [this]⟩
  have hSw : S = w.reverse ++ [sc] := by
    have := congrArg List.reverse hw
    rw [List.reverse_reverse] at this
    rw [this]
    simp
  subst hSw
  unfold jsTrimL
  rw [dropWhile_ws_cons_true '\n' (by decide), List.cons_append,
    dropWhile_ws_cons_false tc htc]
  simp only [List.reverse_cons, List.reverse_append, List.reverse_reverse, List.reverse_nil]
  simp only [List.cons_append, List.nil_append, List.append_assoc]
  rw [dropWhile_ws_cons_true ' ' (by decide), dropWhile_ws_cons_true ' ' (by decide),
    dropWhile_ws_cons_true '\n' (by decide), dropWhile_ws_cons_false sc hsc]
  simp

/-- C7: when the transpiled script body is empty or absent, the assembled
vanilla variant is exactly the template followed by the style (no script
wrapper, no empty script tag), and it contains no `<script` occurrence when
the template and style contain none. -/
theorem vanilla_omits_empty_script (T S : String) (jsOut : Option String)
    (hempty : ∀ s, jsOut = some s → jsTrim s = "")
    (tc : Char) (hT : T.data.head? = some tc) (htc : isWs tc = false)
    (sc : Char) (hS : S.data.getLast? = some sc) (hsc : isWs sc = false) :
    vanillaSource T (wrapScript (jsOut.map jsTrim)) S = T ++ "\n\n" ++ S ∧
    (occursB "<script".data T.data = false → occursB "<script".data S.data = false →
      occursB "<script".data (vanillaSource T (wrapScript (jsOut.map jsTrim)) S).data = false) := by
  have hws : wrapScript (jsOut.map jsTrim) = "" := by
    cases jsOut with
    | none => rfl
    | some s =>
        have h := hempty s rfl
        show wrapScript (some (jsTrim s)) = ""
        rw [h]
        rfl
  have hdata2 : (T ++ "\n\n" ++ S).data = T.data ++ '\n' :: '\n' :: S.data := by
    simp [String.data_append]
  have hmain : vanillaSource T (wrapScript (jsOut.map jsTrim)) S = T ++ "\n\n" ++ S := by
    rw [hws]
    apply String.ext
    show jsTrimL ("\n" ++ T ++ "\n" ++ "" ++ "\n" ++ S ++ "\n  ").data = (T ++ "\n\n" ++ S).data
    have hdata1 : ("\n" ++ T ++ "\n" ++ "" ++ "\n" ++ S ++ "\n  ").data =
        '\n' :: (T.data ++ '\n' :: '\n' :: (S.data ++ ['\n', ' ', ' '])) := by
      simp [String.data_append]
    rw [hdata1, hdata2]
    exact jsTrimL_sandwich T.data S.data tc hT htc sc hS hsc
  refine ⟨hmain, ?_⟩
  intro hTo hSo
  rw [hmain, hdata2]
  by_contra hcon
  rw [Bool.not_eq_false] at hcon
  rcases occursB_split _ _ _ _ (by decide) hcon with h1 | h1
  · rw [hTo] at h1
    exact Bool.false_ne_true h1
  · rcases occursB_split "<script".data [] S.data '\n' (by decide)
      (by rw [List.nil_append]; exact h1) with h2 | h2
    · rw [occursB_nil_false _ (by decide)] at h2
      exact Bool.false_ne_true h2
    · rw [hSo] at h2
      exact Bool.false_ne_true h2

/-- C7 witness: a concrete template/style pair with a whitespace-only
transpiler output. -/
theorem vanilla_omits_empty_script_witness :
    vanillaSource "<template><div/></template>" (wrapScript ((some "  ").map jsTrim))
      "<style>.x</style>" = "<template><div/></template>\n\n<style>.x</style>" ∧
    occursB "<script".data (vanillaSource "<template><div/></template>"
      (wrapScript ((some "  ").map jsTrim)) "<style>.x</style>").data = false := by
  have h := vanilla_omits_empty_script "<template><div/></template>" "<style>.x</style>"
    (some "  ") (by intro s hs; cases hs; decide)
    '<' (by decide) (by decide) '>' (by decide) (by decide)
  exact ⟨h.1.trans (by decide), h.2 (by decide) (by decide)⟩

/-! ## C5: the template escaper is idempotent

Theory of global literal replacement: the output of `replaceAllL p rep`
contains no occurrence of `p` (for the concrete pattern/replacement pairs of
the escaper, whose side conditions are discharged by `decide`), and a second
pattern's replacement preserves that freeness, so running the two-step escape
twice changes nothing. -/

theorem prefNilFalse (p : List Char) (hp : p ≠ []) : p.isPrefixOf ([] : List Char) = false := by
  cases p with
  | nil => simp at hp
  | cons d p' => rfl

/-- Truncation: a prefix of `u ++ t` truncated to `u`'s length is a prefix
of `u`. -/
theorem prefTrunc (p u t : List Char) (h : p.isPrefixOf (u ++ t) = true) :
    (p.take u.length).isPrefixOf u = true := by
  rw [ List.isPrefixOf_iff_prefix] at h ⊢
  induction u generalizing p t with
  | nil => simp
  | cons x u' ih =>
      cases p with
      | nil => simp
      | cons y p' =>
          rw [List.cons_append, List.cons_prefix_cons] at h
          rw [List.length_cons, List.take_succ_cons, List.cons_prefix_cons]
          exact ⟨h.1, ih p' t h.2⟩

theorem replaceAllAux_eq_drop (p rep : List Char) :
    ∀ (s : List Char) (n : Nat), replaceAllAux p rep n s = replaceAllL p rep (s.drop n) := by
  intro s
  induction s with
  | nil => intro n; cases n <;> rfl
  | cons c rest ih =>
      intro n
      cases n with
      | zero => rfl
      | succ m =>
          show replaceAllAux p rep m rest = _
          rw [ih m]
          rfl

theorem replaceAllL_cons_pos (p rep : List Char) (c : Char) (rest : List Char)
    (h : p.isPrefixOf (c :: rest) = true) :
    replaceAllL p rep (c :: rest) = rep ++ replaceAllL p rep (rest.drop (p.length - 1)) := by
  show (if p.isPrefixOf (c :: rest) then rep ++ replaceAllAux p rep (p.length - 1) rest
        else c :: replaceAllAux p rep 0 rest) = _
  rw [h]
  rw [replaceAllAux_eq_drop]
  rfl

theorem replaceAllL_cons_neg (p rep : List Char) (c : Char) (rest : List Char)
    (h : p.isPrefixOf (c :: rest) = false) :
    replaceAllL p rep (c :: rest) = c :: replaceAllL p rep rest := by
  show (if p.isPrefixOf (c :: rest) then rep ++ replaceAllAux p rep (p.length - 1) rest
        else c :: replaceAllAux p rep 0 rest) = _
  rw [h]
  rfl

/-- A pattern-free string is left unchanged. -/
theorem replaceAllL_id (p rep : List Char) :
    ∀ s, (∀ n, p.isPrefixOf (s.drop n) = false) → replaceAllL p rep s = s := by
  intro s
  induction s with
  | nil => intro _; rfl
  | cons c rest ih =>
      intro h
      rw [replaceAllL_cons_neg p rep c rest (h 0)]
      rw [ih (fun n => h (n + 1))]

/-- If no tail of the test pattern (dropping at least one character) can
start inside `rep`, replacement preserves non-prefixness of those tails. -/
theorem tailNotPref (p rep q1 : List Char)
    (hcond : ∀ k, k < q1.length → 1 ≤ k →
      ((q1.drop k).take rep.length).isPrefixOf rep = false) :
    ∀ (rest : List Char) (k : Nat), 1 ≤ k → (q1.drop k).isPrefixOf rest = false →
      (q1.drop k).isPrefixOf (replaceAllL p rep rest) = false := by
  intro rest
  induction rest with
  | nil => intro k _ h; exact h
  | cons c rest' ih =>
      intro k hk h
      by_cases hq : q1.drop k = []
      · rw [hq] at h
        simp [List.isPrefixOf] at h
      · have hk2 : k < q1.length := by
          by_contra hh
          exact hq (List.drop_eq_nil_of_le (by omega))
        by_cases hp : p.isPrefixOf (c :: rest') = true
        · rw [replaceAllL_cons_pos p rep c rest' hp]
          by_contra hcon
          rw [Bool.not_eq_false] at hcon
          have htr := prefTrunc (q1.drop k) rep _ hcon
          rw [hcond k hk2 hk] at htr
          exact Bool.false_ne_true htr
        · rw [replaceAllL_cons_neg p rep c rest' (by
            cases hv : p.isPrefixOf (c :: rest') with
            | true => exact absurd hv hp
            | false => rfl)]
          rw [List.drop_eq_getElem_cons hk2] at h ⊢
          have hsplit : (q1[k] == c) = false ∨ (q1.drop (k + 1)).isPrefixOf rest' = false := by
            by_contra hh
            push_neg at hh
            have h1 : (q1[k] == c) = true := by
              cases hv : q1[k] == c with
              | true => rfl
              | false => exact absurd hv hh.1
            have h2 : (q1.drop (k + 1)).isPrefixOf rest' = true := by
              cases hv : (q1.drop (k + 1)).isPrefixOf rest' with
              | true => rfl
              | false => exact absurd hv hh.2
            have : (q1[k] :: q1.drop (k + 1)).isPrefixOf (c :: rest') = true := by
              show (q1[k] == c && (q1.drop (k + 1)).isPrefixOf rest') = true
              rw [h1, h2]
              rfl
            rw [this] at h
            exact Bool.false_ne_true h.symm
          rcases hsplit with h1 | h2
          · show (q1[k] == c && (q1.drop (k + 1)).isPrefixOf (replaceAllL p rep rest')) = false
            rw [h1]
            rfl
          · have := ih (k + 1) (by omega) h2
            show (q1[k] == c && (q1.drop (k + 1)).isPrefixOf (replaceAllL p rep rest')) = false
            rw [this]
            exact Bool.and_false _

/-- Replacement of `p` by `rep` preserves "`q` is not a prefix here" across a
kept character. -/
theorem headNotPref (p rep q : List Char) (hq : q ≠ [])
    (hcond : ∀ k, k < q.length → 1 ≤ k →
      ((q.drop k).take rep.length).isPrefixOf rep = false)
    (c : Char) (rest : List Char) (h : q.isPrefixOf (c :: rest) = false) :
    q.isPrefixOf (c :: replaceAllL p rep rest) = false := by
  cases q with
  | nil => simp at hq
  | cons d q' =>
      have h' : (d == c && q'.isPrefixOf rest) = false := h
      show (d == c && q'.isPrefixOf (replaceAllL p rep rest)) = false
      by_cases hd : (d == c) = true
      · rw [hd] at h' ⊢
        rw [Bool.true_and] at h' ⊢
        exact tailNotPref p rep (d :: q') hcond rest 1 (by omega) h'
      · have hd' : (d == c) = false := by
          cases hv : d == c with
          | true => exact absurd hv hd
          | false => rfl
        rw [hd']
        rfl

/-- The output of the replacement is free of the pattern, provided no
occurrence of the pattern can start inside the replacement text (side
conditions concrete, discharged by decide at use sites). -/
theorem replaceAllL_free (p rep : List Char) (hp : p ≠ [])
    (hmid : ∀ k, k < rep.length → (p.take (rep.length - k)).isPrefixOf (rep.drop k) = false)
    (htail : ∀ k, k < p.length → 1 ≤ k →
      ((p.drop k).take rep.length).isPrefixOf rep = false) :
    ∀ s n, p.isPrefixOf ((replaceAllL p rep s).drop n) = false := by
  have main : ∀ (N : Nat) (s : List Char), s.length ≤ N →
      ∀ n, p.isPrefixOf ((replaceAllL p rep s).drop n) = false := by
    intro N
    induction N with
    | zero =>
        intro s hs n
        rw [List.eq_nil_of_length_eq_zero (Nat.le_zero.mp hs)]
        show p.isPrefixOf (([] : List Char).drop n) = false
        rw [List.drop_nil]
        exact prefNilFalse p hp
    | succ N ih =>
        intro s hs n
        cases s with
        | nil =>
            show p.isPrefixOf (([] : List Char).drop n) = false
            rw [List.drop_nil]
            exact prefNilFalse p hp
        | cons c rest =>
            by_cases hp2 : p.isPrefixOf (c :: rest) = true
            · rw [replaceAllL_cons_pos p rep c rest hp2]
              rw [List.drop_append_eq_append_drop]
              by_cases hn : n < rep.length
              · by_contra hcon
                rw [Bool.not_eq_false] at hcon
                have htr := prefTrunc p (rep.drop n) _ hcon
                rw [List.length_drop] at htr
                rw [hmid n hn] at htr
                exact Bool.false_ne_true htr
              · rw [List.drop_eq_nil_of_le (by omega), List.nil_append]
                refine ih (rest.drop (p.length - 1)) ?_ (n - rep.length)
                have hdl : (rest.drop (p.length - 1)).length ≤ rest.length := by
                  rw [List.length_drop]
                  omega
                have : rest.length + 1 ≤ N + 1 := by simpa using hs
                omega
            · have hp2' : p.isPrefixOf (c :: rest) = false := by
                cases hv : p.isPrefixOf (c :: rest) with
                | true => exact absurd hv hp2
                | false => rfl
              rw [replaceAllL_cons_neg p rep c rest hp2']
              cases n with
              | zero =>
                  exact headNotPref p rep p hp htail c rest hp2'
              | succ m =>
                  show p.isPrefixOf ((replaceAllL p rep rest).drop m) = false
                  refine ih rest ?_ m
                  have : rest.length + 1 ≤ N + 1 := by simpa using hs
                  omega
  intro s n
  exact main s.length s (le_refl _) n

/-- Replacing a second pattern preserves freeness of a first pattern, when
the first pattern cannot start inside the second replacement text. -/
theorem replaceAllL_preserves_free (p1 p2 rep2 : List Char) (hp1 : p1 ≠ []) (_hp2 : p2 ≠ [])
    (hmid : ∀ k, k < rep2.length → (p1.take (rep2.length - k)).isPrefixOf (rep2.drop k) = false)
    (htail : ∀ k, k < p1.length → 1 ≤ k →
      ((p1.drop k).take rep2.length).isPrefixOf rep2 = false) :
    ∀ s, (∀ n, p1.isPrefixOf (s.drop n) = false) →
      ∀ n, p1.isPrefixOf ((replaceAllL p2 rep2 s).drop n) = false := by
  have main : ∀ (N : Nat) (s : List Char), s.length ≤ N →
      (∀ n, p1.isPrefixOf (s.drop n) = false) →
      ∀ n, p1.isPrefixOf ((replaceAllL p2 rep2 s).drop n) = false := by
    intro N
    induction N with
    | zero =>
        intro s hs _ n
        rw [List.eq_nil_of_length_eq_zero (Nat.le_zero.mp hs)]
        show p1.isPrefixOf (([] : List Char).drop n) = false
        rw [List.drop_nil]
        exact prefNilFalse p1 hp1
    | succ N ih =>
        intro s hs hfree n
        cases s with
        | nil =>
            show p1.isPrefixOf (([] : List Char).drop n) = false
            rw [List.drop_nil]
            exact prefNilFalse p1 hp1
        | cons c rest =>
            by_cases hm : p2.isPrefixOf (c :: rest) = true
            · rw [replaceAllL_cons_pos p2 rep2 c rest hm]
              rw [List.drop_append_eq_append_drop]
              by_cases hn : n < rep2.length
              · by_contra hcon
                rw [Bool.not_eq_false] at hcon
                have htr := prefTrunc p1 (rep2.drop n) _ hcon
                rw [List.length_drop] at htr
                rw [hmid n hn] at htr
                exact Bool.false_ne_true htr
              · rw [List.drop_eq_nil_of_le (by omega), List.nil_append]
                refine ih (rest.drop (p2.length - 1)) ?_ ?_ (n - rep2.length)
                · have : rest.length + 1 ≤ N + 1 := by simpa using hs
                  have hdl : (rest.drop (p2.length - 1)).length ≤ rest.length := by
                    rw [List.length_drop]
                    omega
                  omega
                · intro m
                  rw [List.drop_drop]
                  exact hfree (p2.length - 1 + m + 1)
            · have hm' : p2.isPrefixOf (c :: rest) = false := by
                cases hv : p2.isPrefixOf (c :: rest) with
                | true => exact absurd hv hm
                | false => rfl
              rw [replaceAllL_cons_neg p2 rep2 c rest hm']
              cases n with
              | zero =>
                  exact headNotPref p2 rep2 p1 hp1 htail c rest (hfree 0)
              | succ m =>
                  show p1.isPrefixOf ((replaceAllL p2 rep2 rest).drop m) = false
                  refine ih rest ?_ (fun j => hfree (j + 1)) m
                  have : rest.length + 1 ≤ N + 1 := by simpa using hs
                  omega
  intro s hfree n
  exact main s.length s (le_refl _) hfree n

/-- C5: the template escaper (the two literal replacements inserting the
`<wbr/>` marker) is idempotent: escaping already-escaped text changes
nothing. -/
theorem escape_idempotent (x : String) : escapeVite (escapeVite x) = escapeVite x := by
  apply String.ext
  show replaceAllL "process.env".data "process.<wbr/>env".data
      (replaceAllL "import.meta".data "import.<wbr/>meta".data
        (replaceAllL "process.env".data "process.<wbr/>env".data
          (replaceAllL "import.meta".data "import.<wbr/>meta".data x.data))) =
    replaceAllL "process.env".data "process.<wbr/>env".data
      (replaceAllL "import.meta".data "import.<wbr/>meta".data x.data)
  have hy : ∀ n, ("import.meta".data).isPrefixOf
      ((replaceAllL "import.meta".data "import.<wbr/>meta".data x.data).drop n) = false :=
    replaceAllL_free "import.meta".data "import.<wbr/>meta".data
      (by decide) (by decide) (by decide) x.data
  have hz1 : ∀ n, ("import.meta".data).isPrefixOf
      ((replaceAllL "process.env".data "process.<wbr/>env".data
        (replaceAllL "import.meta".data "import.<wbr/>meta".data x.data)).drop n) = false :=
    replaceAllL_preserves_free "import.meta".data "process.env".data "process.<wbr/>env".data
      (by decide) (by decide) (by decide) (by decide) _ hy
  have hz2 : ∀ n, ("process.env".data).isPrefixOf
      ((replaceAllL "process.env".data "process.<wbr/>env".data
        (replaceAllL "import.meta".data "import.<wbr/>meta".data x.data)).drop n) = false :=
    replaceAllL_free "process.env".data "process.<wbr/>env".data
      (by decide) (by decide) (by decide) _
  rw [replaceAllL_id _ _ _ hz1, replaceAllL_id _ _ _ hz2]

end VM

